import Mathlib

/-!
Verification of the MmpCoin difficulty-retargeting engine.

This file shallowly embeds the consensus-critical code of `src/pow.cpp`
(`GetNextWorkRequired`, `GetNextWorkRequiredNewAlgo`,
`GetNextWorkRequiredOldAlgo`, `CalculateNextWorkRequired`,
`CheckProofOfWork`) and of `src/chainparams.cpp`
(`Consensus::Params::GetConsensus` and the three per-network consensus
parameter trees), and proves properties of the embedding.

Modelling conventions:
* `arith_uint256` values are natural numbers; operations that can exceed
  256 bits reduce modulo `2 ^ 256`, matching the truncating semantics of
  `base_uint<256>`.
* C++ `int64_t` values are `Int`; C++ division and remainder truncate
  toward zero, so they are embedded as `Int.tdiv` / `Int.tmod`.
* Conversions of signed values to `uint32_t` / `uint64_t` (as performed
  by the `base_uint` scalar operators and constructors) reduce modulo
  `2 ^ 32` / `2 ^ 64`.
* Block heights are natural numbers (`CBlockIndex::nHeight` is
  non-negative on every chain).
-/

set_option maxRecDepth 100000

namespace MmpCoin

def POW256 : Nat := 2 ^ 256

/-- C++ conversion of a signed 64-bit value to `uint32_t` (modular). -/
def u32ofInt (i : Int) : Nat := (i % (2 ^ 32 : Int)).toNat

/-- C++ conversion of a signed 64-bit value to `uint64_t` (modular). -/
def u64ofInt (i : Int) : Nat := (i % (2 ^ 64 : Int)).toNat

/-- C++ `int64_t / size_t`: the signed dividend converts to `uint64_t`
and the division is unsigned (`totalSpacing / recentSpacings.size()` in
`pow.cpp`). -/
def udiv64 (a : Int) (n : Nat) : Int := ((u64ofInt a) / n : Nat)

/-- Modelled from the spec: compact (`nBits`) decoding,
`arith_uint256::SetCompact` (arith_uint256.cpp is not under `src/`).
High byte is the exponent `e`, the low 23 bits are the mantissa `m`
(bit 23 of the low word is the sign bit and not part of the magnitude);
the value is `m >> 8*(3-e)` when `e ≤ 3` and `m << 8*(e-3)` otherwise,
truncated to 256 bits. -/
def setCompactValue (nCompact : Nat) : Nat :=
  let nSize := nCompact / 2 ^ 24
  let nWord := nCompact % 2 ^ 23
  if nSize ≤ 3 then nWord / 2 ^ (8 * (3 - nSize))
  else nWord * 2 ^ (8 * (nSize - 3)) % POW256

/-- Modelled from the spec: the negative flag of compact decoding is the
sign bit, bit 23 of the low word. -/
def setCompactNegative (nCompact : Nat) : Bool :=
  decide (nCompact / 2 ^ 23 % 2 = 1)

/-- Modelled from the spec: the overflow flag of compact decoding is set
when the exponent exceeds 34 or the mantissa shift overflows 256 bits. -/
def setCompactOverflow (nCompact : Nat) : Bool :=
  let nSize := nCompact / 2 ^ 24
  let nWord := nCompact % 2 ^ 23
  decide (34 < nSize) || decide (3 < nSize ∧ 2 ^ 256 ≤ nWord * 2 ^ (8 * (nSize - 3)))

/-- Fuel-bounded binary length (`base_uint::bits()`); the fuel makes the
function structurally recursive so that proofs can evaluate it. It
agrees with `Nat.size` on every value below `2 ^ fuel`
(`sizeAux_eq_size`). -/
def sizeAux : Nat → Nat → Nat
  | 0, _ => 0
  | f + 1, x => if x = 0 then 0 else sizeAux f (x / 2) + 1

/-- The binary length of a 256-bit value (`base_uint<256>::bits()`). -/
def bitsLength (x : Nat) : Nat := sizeAux 256 x

/-- Modelled from the spec: canonical compact (`nBits`) encoding,
`arith_uint256::GetCompact` (arith_uint256.cpp is not under `src/`).
The mantissa is shifted so that its top byte is nonzero; if bit 23 would
be set the mantissa is shifted right one more byte and the exponent
bumped. -/
def getCompact (x : Nat) : Nat :=
  let nSize := (bitsLength x + 7) / 8
  let nCompact := if nSize ≤ 3 then x * 2 ^ (8 * (3 - nSize)) else x / 2 ^ (8 * (nSize - 3))
  if 2 ^ 23 ≤ nCompact then nCompact / 2 ^ 8 + (nSize + 1) * 2 ^ 24
  else nCompact + nSize * 2 ^ 24

/-- The consensus parameter fields read by the retargeting engine
(`Consensus::Params`; consensus/params.h is not under `src/`, fields per
the spec's data model). `powLimit` is a `uint256`. -/
structure ConsensusParams where
  powLimit : Nat
  nPowTargetTimespan : Int
  nPowTargetSpacing : Int
  fPowNoRetargeting : Bool
  fPowAllowMinDifficultyBlocks : Bool
  fPowAllowDigishieldMinDifficultyBlocks : Bool
  fDigishieldDifficultyCalculation : Bool
  nHeightEffective : Nat
deriving DecidableEq, Repr

/-- A `CBlockIndex` chain entry: height, block time, compact target and
the predecessor pointer. `base` models an entry whose `pprev` is NULL. -/
inductive BlockIndex : Type where
  | base (nHeight : Nat) (nTime : Int) (nBits : Nat) : BlockIndex
  | cons (nHeight : Nat) (nTime : Int) (nBits : Nat) (pprev : BlockIndex) : BlockIndex
deriving DecidableEq, Repr

def BlockIndex.nHeight : BlockIndex → Nat
  | .base h _ _ => h
  | .cons h _ _ _ => h

def BlockIndex.nTime : BlockIndex → Int
  | .base _ t _ => t
  | .cons _ t _ _ => t

def BlockIndex.nBits : BlockIndex → Nat
  | .base _ _ b => b
  | .cons _ _ b _ => b

def BlockIndex.pprev : BlockIndex → Option BlockIndex
  | .base _ _ _ => none
  | .cons _ _ _ p => some p

/-- All entries reachable from a block through `pprev`, the block
itself included. -/
def chainBlocks : BlockIndex → List BlockIndex
  | .base h t b => [.base h t b]
  | .cons h t b p => .cons h t b p :: chainBlocks p

/-- An inter-block spacing clamped into `[MIN_BLOCK_TIME, MAX_BLOCK_TIME]
= [1, 100 * nPowTargetSpacing]` (pow.cpp lines 72-75, 137-138). -/
def clampSpacing (T s : Int) : Int := min (max s 1) (100 * T)

/-- The spacing-collection loop of `GetNextWorkRequiredNewAlgo`
(pow.cpp lines 134-143): walk back at most `fuel` steps while a
predecessor exists, recording clamped spacings, most recent first. -/
def collectSpacings (T : Int) : Nat → BlockIndex → List Int
  | 0, _ => []
  | _ + 1, .base _ _ _ => []
  | n + 1, .cons _ t _ p => clampSpacing T (t - p.nTime) :: collectSpacings T n p

/-- All clamped spacings of a chain, most recent first (used to compare
the code's fuel-limited walk against window means). -/
def spacingsAll (T : Int) : BlockIndex → List Int
  | .base _ _ _ => []
  | .cons _ t _ p => clampSpacing T (t - p.nTime) :: spacingsAll T p

/-- `recentSpacings` with the empty-chain fallback of pow.cpp lines
145-148 (the fallback pushes `nActualSpacing`). -/
def newAlgoRecentSpacings (T : Int) (tip : BlockIndex) (fallback : Int) : List Int :=
  let l := collectSpacings T 8 tip
  if l = [] then [fallback] else l

/-- `averageSpacing` of `GetNextWorkRequiredNewAlgo` (pow.cpp line 150):
the sum of the collected spacings divided by their number; the division
is `int64_t / size_t`, hence unsigned. -/
def newAlgoAverageSpacing (T : Int) (tip : BlockIndex) (fallback : Int) : Int :=
  let l := newAlgoRecentSpacings T tip fallback
  udiv64 l.sum l.length

/-- `shortTermAverage` of `GetNextWorkRequiredNewAlgo` (pow.cpp lines
153-158): mean of the first `min 3 len` collected spacings. -/
def newAlgoShortAverage (T : Int) (tip : BlockIndex) (fallback : Int) : Int :=
  let l := newAlgoRecentSpacings T tip fallback
  let c := min 3 l.length
  ((l.take c).sum).tdiv (c : Int)

/-- Attack detection (pow.cpp lines 178-194): among the first
`min 6 len` spacings, at least two below `T / 3` and at least two above
`T * 3`, provided at least four spacings were collected. -/
def newAlgoPossibleAttack (T : Int) (l : List Int) : Bool :=
  if 4 ≤ l.length then
    let fastBlocks := (l.take 6).countP fun s => decide (s < T.tdiv 3)
    let slowBlocks := (l.take 6).countP fun s => decide (s > T * 3)
    decide (2 ≤ fastBlocks) && decide (2 ≤ slowBlocks)
  else false

/-- `bRecentLargeAdjustment` (pow.cpp lines 165-172). The source
computes `(double)tip.nBits / (double)tip.pprev.nBits` and compares with
2.0 and 0.5; for 32-bit integer operands the correctly rounded quotient
compares against 2.0 and 0.5 exactly as the rational does (the gap to
the bound is at least 2⁻³³, far above double rounding error there), and
a zero denominator yields infinity (resp. NaN for 0/0) with the same
comparison results; so the condition is embedded exactly as
`nBits > 2 * prev.nBits ∨ 2 * nBits < prev.nBits`. -/
def newAlgoLargeAdjustment : BlockIndex → Bool
  | .cons _ _ nb (.cons _ _ pnb _) => decide (nb > 2 * pnb) || decide (2 * nb < pnb)
  | _ => false

/-- The adjustment-limit band `(maxIncrease, maxDecrease)` selected by
the anomaly flags (pow.cpp lines 228-249). -/
def capBand (attack large delayed : Bool) : Int × Int :=
  if attack then (25, 25)
  else if large then (40, 40)
  else if delayed then (150, 100)
  else (75, 75)

/-- The cap step (pow.cpp lines 251-264). `bnPrevious * (100 - maxIncrease)`
multiplies an `arith_uint256` by a C++ `int` through the
`uint32_t` scalar operator, so the scalar converts modulo `2 ^ 32`
(for `maxIncrease = 150` the factor is `4294967246`). -/
def capStep (bnPrevious bnNew : Nat) (band : Int × Int) : Nat :=
  let bnMaxIncrease := bnPrevious * u32ofInt (100 - band.1) % POW256 / 100
  let bnMaxDecrease := bnPrevious * u32ofInt (100 + band.2) % POW256 / 100
  if bnNew < bnMaxIncrease then bnMaxIncrease
  else if bnNew > bnMaxDecrease then bnMaxDecrease
  else bnNew

/-- The condition `abs(actualChangePercent) < 1.0` of pow.cpp line 279,
where `actualChangePercent = ((double)c / (double)b - 1.0) * 100.0` on
the compact encodings. Embedded as the exact rational condition
`0 < b ∧ 100 * |c - b| < b`; a zero denominator gives infinity (or NaN),
whose comparison with 1.0 is false, matching the `0 < b` conjunct. -/
def smallCompactChange (c b : Nat) : Bool :=
  decide (0 < b) && decide (100 * (max c b - min c b) < b)

/-- The condition `targetDeviation < 0.6 ∨ targetDeviation > 1.4` of
pow.cpp line 282, `targetDeviation = (double)a / (double)T`. Embedded as
the exact rational comparisons `5*a < 3*T ∨ 5*a > 7*T` (for the positive
spacings involved these agree with the double computation). -/
def largeDeviation (a T : Int) : Bool :=
  decide (5 * a < 3 * T) || decide (5 * a > 7 * T)

/-- `GetNextWorkRequiredNewAlgo` (pow.cpp lines 47-352). `now` is the
value returned by `GetTime()` at line 65; the candidate block header is
not read by this function. All purely informational logging (stability
index, hashrate ratio) is omitted as it does not affect the result. -/
def GetNextWorkRequiredNewAlgo (now : Int) (pindexLast : Option BlockIndex)
    (params : ConsensusParams) : Nat :=
  let nProofOfWorkLimit := getCompact (params.powLimit % POW256)
  match pindexLast with
  | none => nProofOfWorkLimit
  | some tip =>
    match tip.pprev with
    | none => nProofOfWorkLimit
    | some prevBlk =>
      if 155550 ≤ tip.nHeight ∧ tip.nHeight < 155650 then nProofOfWorkLimit else
      let T := params.nPowTargetSpacing
      let bnPowLimit := params.powLimit % POW256
      let nTimeSinceLastBlock := now - tip.nTime
      let nActualSpacing := clampSpacing T (tip.nTime - prevBlk.nTime)
      let bDeathSpiralRisk := decide (nTimeSinceLastBlock > 15 * T)
      if bDeathSpiralRisk || decide (nTimeSinceLastBlock > 30 * T) then
        getCompact bnPowLimit
      else if nActualSpacing > 3 * T ∨ nTimeSinceLastBlock > 5 * T then
        let delayFactor := max (nActualSpacing.tdiv T) (nTimeSinceLastBlock.tdiv T)
        let emergencyReduction := min delayFactor 50
        let bnEmergency := setCompactValue tip.nBits * u32ofInt emergencyReduction % POW256
        getCompact (if bnEmergency > bnPowLimit then bnPowLimit else bnEmergency)
      else
        let recent := newAlgoRecentSpacings T tip nActualSpacing
        let averageSpacing := newAlgoAverageSpacing T tip nActualSpacing
        let shortTermAverage := newAlgoShortAverage T tip nActualSpacing
        let bRecentLargeAdjustment := newAlgoLargeAdjustment tip
        let bPossibleAttack := newAlgoPossibleAttack T recent
        let adjustmentSpacing :=
          if bPossibleAttack || bRecentLargeAdjustment then averageSpacing else shortTermAverage
        let bnPrevious := setCompactValue tip.nBits
        let bnNew0 := bnPrevious * u32ofInt adjustmentSpacing % POW256 / u64ofInt T
        let band := capBand bPossibleAttack bRecentLargeAdjustment (decide (nTimeSinceLastBlock > 2 * T))
        let bnNew1 := capStep bnPrevious bnNew0 band
        let bnNew2 := if bnNew1 > bnPowLimit then bnPowLimit else bnNew1
        if !bPossibleAttack && !bRecentLargeAdjustment
            && smallCompactChange (getCompact bnNew2) tip.nBits then
          if largeDeviation adjustmentSpacing T then
            let forced :=
              if adjustmentSpacing < T then bnPrevious * 97 % POW256 / 100
              else bnPrevious * 103 % POW256 / 100
            getCompact (if forced > bnPowLimit then bnPowLimit else forced)
          else getCompact bnNew2
        else getCompact bnNew2

/-- Modelled from the spec: `AllowDigishieldMinDifficultyForBlock`
(dogecoin.cpp is not under `src/`). Per the spec's legacy step 3: fires
when the DigiShield min-difficulty flag is on, DigiShield rules are
active, and the candidate's timestamp exceeds the tip's by more than
twice the target spacing. -/
def AllowDigishieldMinDifficultyForBlock (tip : BlockIndex) (candidateTime : Int)
    (params : ConsensusParams) : Bool :=
  params.fPowAllowDigishieldMinDifficultyBlocks
    && params.fDigishieldDifficultyCalculation
    && decide (candidateTime > tip.nTime + params.nPowTargetSpacing * 2)

/-- Modelled from the spec: `Consensus::Params::DifficultyAdjustmentInterval`
(consensus/params.h is not under `src/`): `nPowTargetTimespan /
nPowTargetSpacing`. -/
def DifficultyAdjustmentInterval (params : ConsensusParams) : Int :=
  params.nPowTargetTimespan.tdiv params.nPowTargetSpacing

/-- The min-difficulty walk-back of pow.cpp lines 393-397: skip
predecessors whose height is off the retarget boundary and whose
`nBits` equals the limit compact; return the first survivor's `nBits`. -/
def walkBackNBits (daInterval : Int) (plc : Nat) : BlockIndex → Nat
  | .base _ _ nb => nb
  | .cons h _ nb p =>
    if ((h : Int)).tmod daInterval ≠ 0 ∧ nb = plc then walkBackNBits daInterval plc p
    else nb

/-- Walk `pprev` a given number of steps (`CBlockIndex::GetAncestor`
reached through `tip.nHeight - blockstogoback`; chain.cpp is not under
`src/`, walk per the spec's `ancestor(index, offset)`). -/
def walkPrev : Nat → BlockIndex → Option BlockIndex
  | 0, b => some b
  | _ + 1, .base _ _ _ => none
  | n + 1, .cons _ _ _ p => walkPrev n p

/-- Modelled from the spec: `CalculateDogecoinNextWorkRequired`
(dogecoin.cpp is not under `src/`). Per the spec's legacy steps 1 and 8:
return `tip.nBits` under `fPowNoRetargeting`; otherwise clamp the actual
timespan (DigiShield-dampened when that flag is set) into
`[timespan/4, timespan*4]`, scale the decoded previous target by
`chosen / timespan`, cap at `powLimit` and re-encode. -/
def CalculateDogecoinNextWorkRequired (tip : BlockIndex) (nFirstBlockTime : Int)
    (params : ConsensusParams) : Nat :=
  if params.fPowNoRetargeting then tip.nBits
  else
    let ts := params.nPowTargetTimespan
    let nActualTimespan := tip.nTime - nFirstBlockTime
    let nModulatedTimespan :=
      if params.fDigishieldDifficultyCalculation then ts + (nActualTimespan - ts).tdiv 8
      else nActualTimespan
    let nMinTimespan := ts.tdiv 4
    let nMaxTimespan := ts * 4
    let chosen :=
      if nModulatedTimespan < nMinTimespan then nMinTimespan
      else if nModulatedTimespan > nMaxTimespan then nMaxTimespan
      else nModulatedTimespan
    let bnPowLimit := params.powLimit % POW256
    let bnNew := setCompactValue tip.nBits * u32ofInt chosen % POW256 / u64ofInt ts
    getCompact (if bnNew > bnPowLimit then bnPowLimit else bnNew)

/-- `CalculateNextWorkRequired` (pow.cpp lines 418-441). -/
def CalculateNextWorkRequired (tip : BlockIndex) (nFirstBlockTime : Int)
    (params : ConsensusParams) : Nat :=
  if params.fPowNoRetargeting then tip.nBits
  else
    let ts := params.nPowTargetTimespan
    let a0 := tip.nTime - nFirstBlockTime
    let a1 := if a0 < ts.tdiv 4 then ts.tdiv 4 else a0
    let a2 := if a1 > ts * 4 then ts * 4 else a1
    let bnPowLimit := params.powLimit % POW256
    let bnNew := setCompactValue tip.nBits * u32ofInt a2 % POW256 / u64ofInt ts
    getCompact (if bnNew > bnPowLimit then bnPowLimit else bnNew)

/-- `GetNextWorkRequiredOldAlgo` (pow.cpp lines 354-416). `candidateTime`
is `pblock->GetBlockTime()`. The source asserts that the lookback
ancestor exists; the embedding defaults its time to 0 when the chain is
too short (the value then feeds `CalculateDogecoinNextWorkRequired`,
which clamps it). -/
def GetNextWorkRequiredOldAlgo (pindexLast : Option BlockIndex) (candidateTime : Int)
    (params : ConsensusParams) : Nat :=
  let nProofOfWorkLimit := getCompact (params.powLimit % POW256)
  match pindexLast with
  | none => nProofOfWorkLimit
  | some tip =>
    if AllowDigishieldMinDifficultyForBlock tip candidateTime params then nProofOfWorkLimit
    else if 145364 ≤ tip.nHeight ∧ tip.nHeight < 145464 then nProofOfWorkLimit
    else
      let fNewDifficultyProtocol := 145000 ≤ tip.nHeight ∧ tip.nHeight < 145365
      let interval : Int :=
        if fNewDifficultyProtocol then 1 else DifficultyAdjustmentInterval params
      if ((tip.nHeight : Int) + 1).tmod interval ≠ 0 then
        if params.fPowAllowMinDifficultyBlocks then
          if candidateTime > tip.nTime + params.nPowTargetSpacing * 2 then nProofOfWorkLimit
          else walkBackNBits (DifficultyAdjustmentInterval params) nProofOfWorkLimit tip
        else tip.nBits
      else
        let blockstogoback := if ((tip.nHeight : Int) + 1) = interval then interval - 1 else interval
        let firstTime := ((walkPrev blockstogoback.toNat tip).map BlockIndex.nTime).getD 0
        CalculateDogecoinNextWorkRequired tip firstTime params

/-- `GetNextWorkRequired` (pow.cpp lines 34-45): dispatch on
`tip.nHeight + 1 ≥ 155550`. `now` is the wall-clock value the new
algorithm reads via `GetTime()`. -/
def GetNextWorkRequired (now : Int) (tip : BlockIndex) (candidateTime : Int)
    (params : ConsensusParams) : Nat :=
  if 155550 ≤ tip.nHeight + 1 then GetNextWorkRequiredNewAlgo now (some tip) params
  else GetNextWorkRequiredOldAlgo (some tip) candidateTime params

/-- `CheckProofOfWork` (pow.cpp lines 443-460). `hash` is a `uint256`,
reduced into range by the embedding. -/
def CheckProofOfWork (hash : Nat) (nBits : Nat) (params : ConsensusParams) : Bool :=
  let fNegative := setCompactNegative nBits
  let fOverflow := setCompactOverflow nBits
  let bnTarget := setCompactValue nBits
  if fNegative || decide (bnTarget = 0) || fOverflow
      || decide (bnTarget > params.powLimit % POW256) then false
  else if decide (hash % POW256 > bnTarget) then false
  else true

/-- The shared `powLimit` of all three networks
(chainparams.cpp lines 94, 269, 421). -/
def NET_POWLIMIT : Nat :=
  0x00000fffffffffffffffffffffffffffffffffffffffffffffffffffffffffff

/-- The consensus-parameter binary search tree, keyed by
`nHeightEffective` (the only field `GetConsensus` reads). -/
inductive CTree : Type where
  | node (nHeightEffective : Nat) (left : Option CTree) (right : Option CTree) : CTree

def CTree.key : CTree → Nat
  | .node k _ _ => k

/-- All `nHeightEffective` keys appearing in a tree. -/
def CTree.keys : CTree → List Nat
  | .node k none none => [k]
  | .node k (some l) none => k :: l.keys
  | .node k none (some r) => k :: r.keys
  | .node k (some l) (some r) => k :: (l.keys ++ r.keys)

/-- `Consensus::Params::GetConsensus` (chainparams.cpp lines 561-573). -/
def GetConsensus (t : CTree) (nTargetHeight : Nat) : CTree :=
  match t with
  | .node k l r =>
    if nTargetHeight < k then
      match l with
      | some lt => GetConsensus lt nTargetHeight
      | none => t
    else if k < nTargetHeight then
      match r with
      | some rt =>
        let pCandidate := GetConsensus rt nTargetHeight
        if pCandidate.key ≤ nTargetHeight then pCandidate else t
      | none => t
    else t

/-- The mainnet consensus tree (chainparams.cpp lines 147-170): root
`digishieldConsensus` with `nHeightEffective = 0xFFFFFFFF`, left child
`consensus` (whose `nHeightEffective` is never assigned and stays at its
zero static initialization), right child `auxpowConsensus` with
`nHeightEffective = 0xFFFFFFFF`. -/
def mainConsensusTree : CTree :=
  .node 4294967295 (some (.node 0 none none)) (some (.node 4294967295 none none))

/-- The testnet consensus tree (chainparams.cpp lines 320-343); same
shape and keys as mainnet. -/
def testnetConsensusTree : CTree :=
  .node 4294967295 (some (.node 0 none none)) (some (.node 4294967295 none none))

/-- The regtest consensus tree (chainparams.cpp lines 472-495); same
shape and keys as mainnet. -/
def regtestConsensusTree : CTree :=
  .node 4294967295 (some (.node 0 none none)) (some (.node 4294967295 none none))

/-! ### Basic facts about the compact encoding -/

theorem size_eq_size_div_two_succ (x : Nat) (hx : x ≠ 0) :
    Nat.size x = Nat.size (x / 2) + 1 := by
  conv_lhs => rw [← Nat.bit_testBit_zero_shiftRight_one x]
  rw [Nat.size_bit (by rw [Nat.bit_testBit_zero_shiftRight_one]; exact hx),
    Nat.shiftRight_one]

theorem sizeAux_eq_size (f : Nat) : ∀ x : Nat, x < 2 ^ f → sizeAux f x = Nat.size x := by
  induction f with
  | zero =>
    intro x hx
    have hx0 : x = 0 := by simpa using hx
    subst hx0
    simp [sizeAux, Nat.size_zero]
  | succ f ih =>
    intro x hx
    by_cases h0 : x = 0
    · subst h0; simp [sizeAux, Nat.size_zero]
    · have hdiv : x / 2 < 2 ^ f := by
        rw [Nat.div_lt_iff_lt_mul (by norm_num)]
        calc x < 2 ^ (f + 1) := hx
          _ = 2 ^ f * 2 := by rw [pow_succ]
      rw [sizeAux, if_neg h0, ih (x / 2) hdiv, ← size_eq_size_div_two_succ x h0]

theorem bitsLength_eq_size (x : Nat) (hx : x < POW256) : bitsLength x = Nat.size x :=
  sizeAux_eq_size 256 x hx


theorem u32ofInt_eq_toNat (i : Int) (h0 : 0 ≤ i) (h : i < 2 ^ 32) :
    u32ofInt i = i.toNat := by
  unfold u32ofInt
  rw [Int.emod_eq_of_lt h0 (by exact_mod_cast h)]

theorem u64ofInt_eq_toNat (i : Int) (h0 : 0 ≤ i) (h : i < 2 ^ 64) :
    u64ofInt i = i.toNat := by
  unfold u64ofInt
  rw [Int.emod_eq_of_lt h0 (by exact_mod_cast h)]

theorem compact_parts (m e : Nat) (hm : m < 2 ^ 23) :
    (m + e * 2 ^ 24) / 2 ^ 24 = e ∧ (m + e * 2 ^ 24) % 2 ^ 23 = m := by
  constructor
  · rw [Nat.add_mul_div_right _ _ (by norm_num : (0:Nat) < 2 ^ 24),
      Nat.div_eq_of_lt (lt_trans hm (by norm_num))]
    omega
  · have h : m + e * 2 ^ 24 = m + e * 2 * 2 ^ 23 := by ring
    rw [h, Nat.add_mul_mod_self_right, Nat.mod_eq_of_lt hm]

theorem setCompactValue_encode (m e : Nat) (hm : m < 2 ^ 23) :
    setCompactValue (m + e * 2 ^ 24) =
      if e ≤ 3 then m / 2 ^ (8 * (3 - e)) else m * 2 ^ (8 * (e - 3)) % POW256 := by
  unfold setCompactValue
  rw [(compact_parts m e hm).1, (compact_parts m e hm).2]

/-- Compact encode-then-decode never increases a 256-bit value, and
keeps positive values positive. -/
theorem setCompactValue_getCompact (x : Nat) (hx : x < POW256) :
    setCompactValue (getCompact x) ≤ x ∧ (0 < x → 0 < setCompactValue (getCompact x)) := by
  simp only [getCompact, bitsLength_eq_size x hx]
  set s := Nat.size x with hs
  set n := (s + 7) / 8 with hn
  have hxs : x < 2 ^ s := Nat.lt_size_self x
  have hsn : s ≤ 8 * n := by omega
  have hxn : x < 2 ^ (8 * n) :=
    lt_of_lt_of_le hxs (Nat.pow_le_pow_right (by norm_num) hsn)
  by_cases h3 : n ≤ 3
  · -- small values: the mantissa is shifted left
    have hx24 : x * 2 ^ (8 * (3 - n)) < 2 ^ 24 := by
      calc x * 2 ^ (8 * (3 - n)) < 2 ^ (8 * n) * 2 ^ (8 * (3 - n)) :=
            (Nat.mul_lt_mul_right (Nat.pos_pow_of_pos _ (by norm_num))).mpr hxn
        _ ≤ 2 ^ 24 := by rw [← pow_add]; exact Nat.pow_le_pow_right (by norm_num) (by omega)
    rw [if_pos h3]
    by_cases hb : 2 ^ 23 ≤ x * 2 ^ (8 * (3 - n))
    · rw [if_pos hb]
      have hdiv23 : x * 2 ^ (8 * (3 - n)) / 2 ^ 8 < 2 ^ 23 := by
        have h16 : x * 2 ^ (8 * (3 - n)) / 2 ^ 8 < 2 ^ 16 :=
          Nat.div_lt_of_lt_mul (by calc x * 2 ^ (8 * (3 - n)) < 2 ^ 24 := hx24
            _ = 2 ^ 16 * 2 ^ 8 := by norm_num)
        omega
      rw [setCompactValue_encode _ _ hdiv23]
      by_cases h2 : n ≤ 2
      · -- exponent n+1 ≤ 3: decoding is exact
        rw [if_pos (by omega : n + 1 ≤ 3)]
        have hsplit : x * 2 ^ (8 * (3 - n)) = x * 2 ^ (8 * (2 - n)) * 2 ^ 8 := by
          rw [mul_assoc, ← pow_add]; congr 2; omega
        rw [hsplit, Nat.mul_div_cancel _ (by norm_num : (0:Nat) < 2 ^ 8)]
        have h23 : 8 * (3 - (n + 1)) = 8 * (2 - n) := by omega
        rw [h23, Nat.mul_div_cancel _ (Nat.pos_pow_of_pos _ (by norm_num))]
        exact ⟨le_refl x, fun h => h⟩
      · -- n = 3: one byte of mantissa is dropped
        have hn3 : n = 3 := by omega
        rw [if_neg (by omega : ¬ n + 1 ≤ 3)]
        have hcx : x * 2 ^ (8 * (3 - n)) = x := by rw [hn3]; norm_num
        have h13 : 8 * (n + 1 - 3) = 8 := by omega
        rw [hcx] at hb
        rw [hcx, h13]
        have hle : x / 2 ^ 8 * 2 ^ 8 ≤ x := Nat.div_mul_le_self x (2 ^ 8)
        rw [Nat.mod_eq_of_lt (lt_of_le_of_lt hle hx)]
        refine ⟨hle, fun _ => ?_⟩
        exact Nat.mul_pos
          (Nat.div_pos (le_trans (by norm_num : (2:Nat) ^ 8 ≤ 2 ^ 23) hb) (by norm_num))
          (by norm_num)
    · rw [if_neg hb]
      push_neg at hb
      rw [setCompactValue_encode _ _ hb, if_pos h3,
        Nat.mul_div_cancel _ (Nat.pos_pow_of_pos _ (by norm_num))]
      exact ⟨le_refl x, fun h => h⟩
  · -- large values: the mantissa is shifted right
    push_neg at h3
    have hslow : 8 * n ≤ s + 7 := by omega
    have hx0 : 0 < x := by
      have h25 : 25 ≤ s := by omega
      have hsz : 0 < Nat.size x := by omega
      have := Nat.lt_size.mp hsz
      omega
    have hxlow : 2 ^ (s - 1) ≤ x := Nat.lt_size.mp (by omega : s - 1 < Nat.size x)
    have hklow : 2 ^ (8 * (n - 3)) ≤ x := by
      refine le_trans (Nat.pow_le_pow_right (by norm_num) ?_) hxlow
      omega
    rw [if_neg (by omega : ¬ n ≤ 3)]
    have hc24 : x / 2 ^ (8 * (n - 3)) < 2 ^ 24 := by
      apply Nat.div_lt_of_lt_mul
      calc x < 2 ^ (8 * n) := hxn
        _ = 2 ^ (8 * (n - 3)) * 2 ^ 24 := by rw [← pow_add]; congr 1; omega
    by_cases hb : 2 ^ 23 ≤ x / 2 ^ (8 * (n - 3))
    · rw [if_pos hb]
      have hdiv23 : x / 2 ^ (8 * (n - 3)) / 2 ^ 8 < 2 ^ 23 := by
        have h16 : x / 2 ^ (8 * (n - 3)) / 2 ^ 8 < 2 ^ 16 :=
          Nat.div_lt_of_lt_mul (by calc x / 2 ^ (8 * (n - 3)) < 2 ^ 24 := hc24
            _ = 2 ^ 16 * 2 ^ 8 := by norm_num)
        omega
      rw [setCompactValue_encode _ _ hdiv23, if_neg (by omega : ¬ n + 1 ≤ 3)]
      have hdd : x / 2 ^ (8 * (n - 3)) / 2 ^ 8 = x / 2 ^ (8 * (n + 1 - 3)) := by
        rw [Nat.div_div_eq_div_mul, ← pow_add]; congr 2; omega
      rw [hdd]
      have hle : x / 2 ^ (8 * (n + 1 - 3)) * 2 ^ (8 * (n + 1 - 3)) ≤ x :=
        Nat.div_mul_le_self x _
      rw [Nat.mod_eq_of_lt (lt_of_le_of_lt hle hx)]
      refine ⟨hle, fun _ => ?_⟩
      have h2 : 0 < x / 2 ^ (8 * (n + 1 - 3)) := by
        rw [← hdd]
        have h15 : 2 ^ 23 / 2 ^ 8 ≤ x / 2 ^ (8 * (n - 3)) / 2 ^ 8 :=
          Nat.div_le_div_right hb
        have h15' : (2:Nat) ^ 23 / 2 ^ 8 = 2 ^ 15 := by norm_num
        omega
      exact Nat.mul_pos h2 (Nat.pos_pow_of_pos _ (by norm_num))
    · rw [if_neg hb]
      push_neg at hb
      rw [setCompactValue_encode _ _ hb, if_neg (by omega : ¬ n ≤ 3)]
      have hle : x / 2 ^ (8 * (n - 3)) * 2 ^ (8 * (n - 3)) ≤ x := Nat.div_mul_le_self x _
      rw [Nat.mod_eq_of_lt (lt_of_le_of_lt hle hx)]
      refine ⟨hle, fun _ => ?_⟩
      exact Nat.mul_pos (Nat.div_pos hklow (Nat.pos_pow_of_pos _ (by norm_num)))
        (Nat.pos_pow_of_pos _ (by norm_num))


/-! ### Concrete fixtures -/

/-- The main-network consensus parameters as consumed by the engine
(chainparams.cpp lines 94-98; the flags not assigned by `CMainParams`
retain their zero static initialization, as does `nHeightEffective`). -/
def mainnetParams : ConsensusParams :=
  { powLimit := NET_POWLIMIT
    nPowTargetTimespan := 1200
    nPowTargetSpacing := 60
    fPowNoRetargeting := false
    fPowAllowMinDifficultyBlocks := false
    fPowAllowDigishieldMinDifficultyBlocks := false
    fDigishieldDifficultyCalculation := false
    nHeightEffective := 0 }

/-- Regtest-style parameters with retargeting disabled. -/
def noRetargetParams : ConsensusParams :=
  { mainnetParams with fPowNoRetargeting := true }

/-- A post-fork chain whose last eight spacings are all exactly 60
seconds, tip at height 155700 with `nBits = 0x1d00ffff`. -/
def sixtyTail : BlockIndex :=
  .cons 155699 999940 0x1d00ffff
  (.cons 155698 999880 0x1d00ffff
  (.cons 155697 999820 0x1d00ffff
  (.cons 155696 999760 0x1d00ffff
  (.cons 155695 999700 0x1d00ffff
  (.cons 155694 999640 0x1d00ffff
  (.cons 155693 999580 0x1d00ffff
  (.base 155692 999520 0x1d00ffff)))))))

def chainSpacingSixty : BlockIndex := .cons 155700 1000000 0x1d00ffff sixtyTail

/-- A post-fork chain whose last eight spacings are all exactly 35
seconds (58 percent of target), tip at height 155700. -/
def chainSpacingThirtyFive : BlockIndex :=
  .cons 155700 1000000 0x1d00ffff
  (.cons 155699 999965 0x1d00ffff
  (.cons 155698 999930 0x1d00ffff
  (.cons 155697 999895 0x1d00ffff
  (.cons 155696 999860 0x1d00ffff
  (.cons 155695 999825 0x1d00ffff
  (.cons 155694 999790 0x1d00ffff
  (.cons 155693 999755 0x1d00ffff
  (.base 155692 999720 0x1d00ffff))))))))

/-- A post-fork chain whose last eight spacings are all exactly 120
seconds, tip at height 155700. -/
def chainSpacingOneTwenty : BlockIndex :=
  .cons 155700 1000000 0x1d00ffff
  (.cons 155699 999880 0x1d00ffff
  (.cons 155698 999760 0x1d00ffff
  (.cons 155697 999640 0x1d00ffff
  (.cons 155696 999520 0x1d00ffff
  (.cons 155695 999400 0x1d00ffff
  (.cons 155694 999280 0x1d00ffff
  (.cons 155693 999160 0x1d00ffff
  (.base 155692 999040 0x1d00ffff))))))))

/-- A chain with twelve recorded spacings: the three most recent are 60
seconds, the nine older ones 120 seconds. -/
def mixedSpacingChain : BlockIndex :=
  .cons 200 10000 0x1d00ffff
  (.cons 199 9940 0x1d00ffff
  (.cons 198 9880 0x1d00ffff
  (.cons 197 9820 0x1d00ffff
  (.cons 196 9700 0x1d00ffff
  (.cons 195 9580 0x1d00ffff
  (.cons 194 9460 0x1d00ffff
  (.cons 193 9340 0x1d00ffff
  (.cons 192 9220 0x1d00ffff
  (.cons 191 9100 0x1d00ffff
  (.cons 190 8980 0x1d00ffff
  (.cons 189 8860 0x1d00ffff
  (.base 188 8740 0x1d00ffff))))))))))))

/-- A legacy-era tip (height 100) whose own `nBits` is zero. -/
def offIntervalZeroBitsTip : BlockIndex :=
  .cons 100 6000 0 (.base 99 5940 0x1e0fffff)

/-- A tip inside the legacy frozen window `[145364, 145464)`. -/
def frozenWindowTip : BlockIndex :=
  .cons 145400 6000 0x1d00ffff (.base 145399 5940 0x1d00ffff)

/-- A tip inside the post-fork freeze window `[155550, 155650)`. -/
def postForkFreezeTip : BlockIndex :=
  .cons 155600 1000 0x1d00ffff (.base 155599 940 0x1d00ffff)

/-- A legacy-era two-block chain with well-formed compact targets. -/
def legacyWitnessTip : BlockIndex :=
  .cons 100 6000 0x1e0fffff (.base 99 5940 0x1e0fffff)

/-! ### C2: CheckProofOfWork characterization -/

/-- C2: `CheckProofOfWork(hash, nBits, params)` returns true if and only
if decoding `nBits` yields (target, negative, overflow) with negative
false, overflow false, target nonzero, target at most `params.powLimit`,
and hash at most target; it returns false in every other case. -/
theorem checkProofOfWork_iff (hash nBits : Nat) (params : ConsensusParams) :
    CheckProofOfWork hash nBits params = true ↔
      (setCompactNegative nBits = false ∧ setCompactOverflow nBits = false ∧
       setCompactValue nBits ≠ 0 ∧ setCompactValue nBits ≤ params.powLimit % POW256 ∧
       hash % POW256 ≤ setCompactValue nBits) := by
  unfold CheckProofOfWork
  by_cases h1 : setCompactNegative nBits <;>
    by_cases h2 : setCompactOverflow nBits <;>
      (simp [h1, h2]; try omega)

/-- C2 witness: the characterization applied at a concrete input. -/
theorem checkProofOfWork_iff_witness :
    CheckProofOfWork (2 ^ 200) 0x1d00ffff mainnetParams = true ↔
      (setCompactNegative 0x1d00ffff = false ∧ setCompactOverflow 0x1d00ffff = false ∧
       setCompactValue 0x1d00ffff ≠ 0 ∧
       setCompactValue 0x1d00ffff ≤ mainnetParams.powLimit % POW256 ∧
       2 ^ 200 % POW256 ≤ setCompactValue 0x1d00ffff) :=
  checkProofOfWork_iff (2 ^ 200) 0x1d00ffff mainnetParams

/-! ### C3: the consensus-parameter lookup -/

theorem consensusTree_lookup (H : Nat) :
    (GetConsensus (CTree.node 4294967295 (some (.node 0 none none))
        (some (.node 4294967295 none none))) H).key ≤ H ∧
      ∀ k ∈ (CTree.node 4294967295 (some (CTree.node 0 none none))
        (some (CTree.node 4294967295 none none))).keys,
        k ≤ (GetConsensus (CTree.node 4294967295 (some (.node 0 none none))
          (some (.node 4294967295 none none))) H).key ∨ H < k := by
  rcases Nat.lt_trichotomy H 4294967295 with h | h | h
  · have hres : GetConsensus (CTree.node 4294967295 (some (.node 0 none none))
        (some (.node 4294967295 none none))) H = .node 0 none none := by
      simp only [GetConsensus, if_pos h]
      rcases Nat.eq_zero_or_pos H with h0 | h0
      · subst h0; simp [GetConsensus]
      · simp [GetConsensus, Nat.not_lt.mpr (Nat.zero_le H), h0]
    rw [hres]
    refine ⟨Nat.zero_le H, ?_⟩
    intro k hk
    simp only [CTree.keys, List.mem_cons, List.mem_append, List.mem_singleton,
      List.not_mem_nil, or_false] at hk
    simp only [CTree.key]
    rcases hk with rfl | rfl | rfl <;> omega
  · subst h
    have hres : GetConsensus (CTree.node 4294967295 (some (.node 0 none none))
        (some (.node 4294967295 none none))) 4294967295 =
        CTree.node 4294967295 (some (.node 0 none none))
          (some (.node 4294967295 none none)) := by
      simp [GetConsensus]
    rw [hres]
    simp only [CTree.key]
    refine ⟨le_refl _, ?_⟩
    intro k hk
    simp only [CTree.keys, List.mem_cons, List.mem_append, List.mem_singleton,
      List.not_mem_nil, or_false] at hk
    rcases hk with rfl | rfl | rfl <;> omega
  · have hres : GetConsensus (CTree.node 4294967295 (some (.node 0 none none))
        (some (.node 4294967295 none none))) H = .node 4294967295 none none := by
      simp [GetConsensus, CTree.key, Nat.not_lt.mpr (le_of_lt h), h, le_of_lt h]
    rw [hres]
    simp only [CTree.key]
    refine ⟨le_of_lt h, ?_⟩
    intro k hk
    simp only [CTree.keys, List.mem_cons, List.mem_append, List.mem_singleton,
      List.not_mem_nil, or_false] at hk
    rcases hk with rfl | rfl | rfl <;> omega

/-- C3: for every target height `H` and each of the three consensus
trees built by the main, test and regtest chain params,
`Consensus::Params::GetConsensus(H)` returns a params set `P` with
`P.nHeightEffective ≤ H`, and no set in the tree has an
`nHeightEffective` in the interval `(P.nHeightEffective, H]`. -/
theorem getConsensus_active (H : Nat) :
    ((GetConsensus mainConsensusTree H).key ≤ H ∧
      ∀ k ∈ mainConsensusTree.keys,
        k ≤ (GetConsensus mainConsensusTree H).key ∨ H < k) ∧
    ((GetConsensus testnetConsensusTree H).key ≤ H ∧
      ∀ k ∈ testnetConsensusTree.keys,
        k ≤ (GetConsensus testnetConsensusTree H).key ∨ H < k) ∧
    ((GetConsensus regtestConsensusTree H).key ≤ H ∧
      ∀ k ∈ regtestConsensusTree.keys,
        k ≤ (GetConsensus regtestConsensusTree H).key ∨ H < k) :=
  ⟨consensusTree_lookup H, consensusTree_lookup H, consensusTree_lookup H⟩

/-- C3 witness: the lookup theorem applied at a concrete height. -/
theorem getConsensus_active_witness :
    (GetConsensus mainConsensusTree 155600).key ≤ 155600 :=
  ((getConsensus_active 155600).1).1

/-! ### C5: the post-fork freeze window -/

/-- C5: for every tip with height in `[155550, 155650)` and a non-null
predecessor, and every wall-clock value, candidate time and params, the
next-work computation returns the compact encoding of `params.powLimit`. -/
theorem freezeWindow_powLimit (now candidateTime : Int) (tip : BlockIndex)
    (params : ConsensusParams) (hprev : tip.pprev ≠ none)
    (h1 : 155550 ≤ tip.nHeight) (h2 : tip.nHeight < 155650) :
    GetNextWorkRequired now tip candidateTime params =
      getCompact (params.powLimit % POW256) := by
  cases tip with
  | base h t b => simp [BlockIndex.pprev] at hprev
  | cons h t b p =>
    simp only [BlockIndex.nHeight] at h1 h2
    unfold GetNextWorkRequired
    rw [if_pos (by simp [BlockIndex.nHeight]; omega)]
    unfold GetNextWorkRequiredNewAlgo
    simp only [BlockIndex.pprev, BlockIndex.nHeight]
    rw [if_pos ⟨h1, h2⟩]

/-- C5 witness: the freeze-window theorem applied to a concrete tip. -/
theorem freezeWindow_powLimit_witness :
    GetNextWorkRequired 99999999 postForkFreezeTip 0 mainnetParams =
      getCompact (mainnetParams.powLimit % POW256) :=
  freezeWindow_powLimit 99999999 0 postForkFreezeTip mainnetParams
    (by decide) (by decide) (by decide)


/-! ### C4: wall-clock dependence of the next-work computation -/

/-- C4 counterexample: the same tip chain, candidate block and params
give different compact targets when the wall clock (`GetTime()`, read at
pow.cpp line 65) differs: one minute after the tip the normal adjustment
path keeps `0x1d00ffff`, sixteen minutes after it the death-spiral
protection returns the limit `0x1e0fffff`. -/
theorem nextWork_pure_cex :
    GetNextWorkRequired 1000060 chainSpacingSixty 0 mainnetParams ≠
      GetNextWorkRequired 1000960 chainSpacingSixty 0 mainnetParams := by decide

/-- C4 amended: below the fork height the computation never reads the
wall clock, so any two invocations with identical tip, candidate time
and params agree; above the fork height the result additionally depends
on the `GetTime()` value. -/
theorem nextWork_preFork_clockFree (now1 now2 candidateTime : Int) (tip : BlockIndex)
    (params : ConsensusParams) (h : tip.nHeight + 1 < 155550) :
    GetNextWorkRequired now1 tip candidateTime params =
      GetNextWorkRequired now2 tip candidateTime params := by
  unfold GetNextWorkRequired
  rw [if_neg (by omega), if_neg (by omega)]

/-- C4 witness: the pre-fork theorem applied at a concrete input. -/
theorem nextWork_preFork_clockFree_witness :
    GetNextWorkRequired 5 legacyWitnessTip 6060 mainnetParams =
      GetNextWorkRequired 999999 legacyWitnessTip 6060 mainnetParams :=
  nextWork_preFork_clockFree 5 999999 6060 legacyWitnessTip mainnetParams (by decide)

/-! ### C8: the minimum-meaningful-adjustment step -/

/-- C8 exhibit: at this concrete post-fork input (eight spacings of 35
seconds, 58 percent of target, same `nBits` throughout) the
minimum-meaningful-adjustment branch fires and the returned compact is
the re-encoded forced value `prev * 97 / 100`. In the source the firing
decision is taken by comparing IEEE-double quotients
(pow.cpp lines 276-282), contradicting the requirement that no
floating-point computation influence the returned target; at this input
the quotients are far from the comparison bounds, so the embedded exact
comparisons coincide with the double ones. -/
theorem minAdjust_forced_eval :
    GetNextWorkRequired 1000030 chainSpacingThirtyFive 0 mainnetParams =
      getCompact (setCompactValue 0x1d00ffff * 97 / 100) := by decide

/-! ### C9: fPowNoRetargeting in the legacy algorithm -/

/-- C9 counterexample: with `fPowNoRetargeting = true` and a tip inside
the legacy frozen window `[145364, 145464)`, the legacy algorithm
returns the compact of `powLimit` and not `tip.nBits`. -/
theorem noRetarget_cex :
    noRetargetParams.fPowNoRetargeting = true ∧
    GetNextWorkRequiredOldAlgo (some frozenWindowTip) 6060 noRetargetParams ≠
      frozenWindowTip.nBits := by decide

/-- C9 amended: with `fPowNoRetargeting = true` the legacy algorithm
returns `tip.nBits`, provided the tip is outside the frozen window and
neither min-difficulty exception applies; inside the frozen window or
under the DigiShield exception it returns the compact of `powLimit`
regardless of the flag. -/
theorem noRetarget_amended (tip : BlockIndex) (candidateTime : Int)
    (params : ConsensusParams)
    (hnr : params.fPowNoRetargeting = true)
    (hmd : params.fPowAllowMinDifficultyBlocks = false)
    (hdg : AllowDigishieldMinDifficultyForBlock tip candidateTime params = false)
    (hfr : ¬(145364 ≤ tip.nHeight ∧ tip.nHeight < 145464)) :
    GetNextWorkRequiredOldAlgo (some tip) candidateTime params = tip.nBits := by
  simp only [GetNextWorkRequiredOldAlgo, hdg, Bool.false_eq_true, if_false, hmd]
  rw [if_neg hfr]
  by_cases hmod : ((tip.nHeight : Int) + 1).tmod
      (if 145000 ≤ tip.nHeight ∧ tip.nHeight < 145365 then 1
       else DifficultyAdjustmentInterval params) ≠ 0
  · rw [if_pos hmod]
  · rw [if_neg hmod]
    simp only [CalculateDogecoinNextWorkRequired, hnr, if_true]

/-- C9 witness: the amended theorem applied at a concrete input. -/
theorem noRetarget_amended_witness :
    GetNextWorkRequiredOldAlgo (some legacyWitnessTip) 6060 noRetargetParams =
      legacyWitnessTip.nBits :=
  noRetarget_amended legacyWitnessTip 6060 noRetargetParams
    (by decide) (by decide) (by decide) (by decide)

/-! ### C1 counterexample: the returned target can decode to zero -/

/-- C1 counterexample: a legacy off-interval tip whose own `nBits` is 0
is returned unmodified, and the returned compact decodes to 0, violating
the claimed invariant `0 < T`. -/
theorem nextWork_range_cex :
    GetNextWorkRequired 0 offIntervalZeroBitsTip 6060 mainnetParams =
      offIntervalZeroBitsTip.nBits ∧
    setCompactValue (GetNextWorkRequired 0 offIntervalZeroBitsTip 6060 mainnetParams) = 0 := by
  decide

/-! ### C7 counterexample: the prolonged-delay cap band -/

/-- C7 counterexample: a post-fork input with both anomaly flags clear
and `time_since_last > 2 * nPowTargetSpacing` selects the
`(maxIncrease, maxDecrease) = (150, 100)` band; there `100 - 150`
converts to the unsigned scalar 4294967246, the lower band exceeds the
upper band, and the returned target decodes strictly above the claimed
upper bound `prev * (100 + 100) / 100`. -/
theorem capBand_cex :
    newAlgoPossibleAttack 60 (newAlgoRecentSpacings 60 chainSpacingOneTwenty 120) = false ∧
    newAlgoLargeAdjustment chainSpacingOneTwenty = false ∧
    ((1000150 : Int) - chainSpacingOneTwenty.nTime > 2 * 60) ∧
    setCompactValue (GetNextWorkRequired 1000150 chainSpacingOneTwenty 0 mainnetParams) >
      setCompactValue chainSpacingOneTwenty.nBits * (100 + 100) / 100 := by decide

/-! ### C6 counterexample: the analysis windows -/

/-- C6 counterexample: on a chain with twelve recorded spacings (three
of 60 seconds, then nine of 120), the code's long-term average differs
from the mean of the 12 most recent clamped spacings and its short-term
average differs from the mean of the 6 most recent ones. -/
theorem windows_cex :
    (spacingsAll 60 mixedSpacingChain).length = 12 ∧
    newAlgoAverageSpacing 60 mixedSpacingChain 60 ≠
      ((spacingsAll 60 mixedSpacingChain).take 12).sum.tdiv 12 ∧
    newAlgoShortAverage 60 mixedSpacingChain 60 ≠
      ((spacingsAll 60 mixedSpacingChain).take 6).sum.tdiv 6 := by decide


/-! ### Helper lemmas about spacings and averages -/

theorem natCast_tdiv (m n : Nat) : (m : Int).tdiv (n : Int) = ((m / n : Nat) : Int) := rfl

theorem tdiv_ofNonneg (x : Int) (hx : 0 ≤ x) (n : Nat) :
    x.tdiv (n : Int) = ((x.toNat / n : Nat) : Int) := by
  rw [← Int.toNat_of_nonneg hx, natCast_tdiv, Int.toNat_of_nonneg hx]

theorem tdiv_toNat (x y : Int) (hx : 0 ≤ x) (hy : 0 ≤ y) :
    x.tdiv y = ((x.toNat / y.toNat : Nat) : Int) := by
  conv_lhs => rw [← Int.toNat_of_nonneg hx, ← Int.toNat_of_nonneg hy]
  exact natCast_tdiv _ _

theorem collectSpacings_eq_take (T : Int) :
    ∀ (n : Nat) (b : BlockIndex), collectSpacings T n b = (spacingsAll T b).take n := by
  intro n
  induction n with
  | zero => intro b; cases b <;> simp [collectSpacings]
  | succ n ih =>
    intro b
    cases b with
    | base h t bb => simp [collectSpacings, spacingsAll]
    | cons h t bb p => simp [collectSpacings, spacingsAll, ih p]

theorem clampSpacing_bounds (s : Int) : 1 ≤ clampSpacing 60 s ∧ clampSpacing 60 s ≤ 6000 := by
  unfold clampSpacing; omega

theorem spacingsAll_bounds (b : BlockIndex) :
    ∀ x ∈ spacingsAll 60 b, 1 ≤ x ∧ x ≤ 6000 := by
  induction b with
  | base h t bb => simp [spacingsAll]
  | cons h t bb p ih =>
    intro x hx
    simp only [spacingsAll, List.mem_cons] at hx
    rcases hx with rfl | hx
    · exact clampSpacing_bounds _
    · exact ih x hx

theorem sum_bounds_int (l : List Int) (h : ∀ x ∈ l, 1 ≤ x ∧ x ≤ 6000) :
    (l.length : Int) ≤ l.sum ∧ l.sum ≤ 6000 * l.length := by
  induction l with
  | nil => simp
  | cons a t ih =>
    have ha := h a (List.mem_cons_self a t)
    have ht := ih fun x hx => h x (List.mem_cons_of_mem a hx)
    simp only [List.sum_cons, List.length_cons]
    push_cast
    omega

/-- The unsigned mean of a short list of values in `[1, 6000]` lies in
`[1, 6000]`. -/
theorem udiv64_mean_range (l : List Int) (hne : l ≠ []) (hlen : l.length ≤ 8)
    (h : ∀ x ∈ l, 1 ≤ x ∧ x ≤ 6000) :
    1 ≤ udiv64 l.sum l.length ∧ udiv64 l.sum l.length ≤ 6000 := by
  obtain ⟨hlo, hhi⟩ := sum_bounds_int l h
  have hlen1 : 1 ≤ l.length := by
    cases l with
    | nil => exact absurd rfl hne
    | cons a t => simp
  have hsum0 : 0 ≤ l.sum := by
    have : (1 : Int) ≤ (l.length : Int) := by exact_mod_cast hlen1
    omega
  have hsum64 : l.sum < 2 ^ 64 := by
    have h8 : (l.length : Int) ≤ 8 := by exact_mod_cast hlen
    have : l.sum ≤ 6000 * 8 := by omega
    omega
  unfold udiv64 u64ofInt
  rw [Int.emod_eq_of_lt hsum0 hsum64]
  have htn1 : l.length ≤ l.sum.toNat := by omega
  have htn2 : l.sum.toNat ≤ 6000 * l.length := by omega
  constructor
  · have : 1 ≤ l.sum.toNat / l.length :=
      (Nat.one_le_div_iff (by omega)).mpr htn1
    exact_mod_cast this
  · have : l.sum.toNat / l.length ≤ 6000 := by
      have := Nat.div_le_div_right (c := l.length) htn2
      rw [Nat.mul_div_cancel _ (by omega : 0 < l.length)] at this
      exact this
    exact_mod_cast this

/-- The truncating mean of a short nonempty prefix of values in
`[1, 6000]` lies in `[1, 6000]`. -/
theorem tdiv_mean_range (l : List Int) (c : Nat) (hc : 1 ≤ c) (hcl : c ≤ l.length)
    (h : ∀ x ∈ l, 1 ≤ x ∧ x ≤ 6000) :
    1 ≤ ((l.take c).sum).tdiv (c : Int) ∧ ((l.take c).sum).tdiv (c : Int) ≤ 6000 := by
  have htp : ∀ x ∈ l.take c, 1 ≤ x ∧ x ≤ 6000 := fun x hx => h x (List.mem_of_mem_take hx)
  obtain ⟨hlo, hhi⟩ := sum_bounds_int (l.take c) htp
  have hlent : (l.take c).length = c := by
    rw [List.length_take]; omega
  rw [hlent] at hlo hhi
  have hsum0 : 0 ≤ (l.take c).sum := by
    have : (1 : Int) ≤ (c : Int) := by exact_mod_cast hc
    omega
  rw [tdiv_ofNonneg _ hsum0]
  have htn1 : c ≤ (l.take c).sum.toNat := by omega
  have htn2 : (l.take c).sum.toNat ≤ 6000 * c := by omega
  constructor
  · have : 1 ≤ (l.take c).sum.toNat / c := (Nat.one_le_div_iff (by omega)).mpr htn1
    exact_mod_cast this
  · have : (l.take c).sum.toNat / c ≤ 6000 := by
      have := Nat.div_le_div_right (c := c) htn2
      rw [Nat.mul_div_cancel _ (by omega : 0 < c)] at this
      exact this
    exact_mod_cast this

theorem self_mem_chainBlocks (b : BlockIndex) : b ∈ chainBlocks b := by
  cases b <;> simp [chainBlocks]

theorem walkBackNBits_mem (dai : Int) (plc : Nat) (b : BlockIndex) :
    ∃ blk ∈ chainBlocks b, walkBackNBits dai plc b = blk.nBits := by
  induction b with
  | base h t nb => exact ⟨.base h t nb, by simp [chainBlocks], rfl⟩
  | cons h t nb p ih =>
    by_cases hcond : ((h : Int)).tmod dai ≠ 0 ∧ nb = plc
    · obtain ⟨blk, hmem, heq⟩ := ih
      refine ⟨blk, ?_, ?_⟩
      · simp [chainBlocks, hmem]
      · rw [walkBackNBits, if_pos hcond]; exact heq
    · refine ⟨.cons h t nb p, by simp [chainBlocks], ?_⟩
      rw [walkBackNBits, if_neg hcond]
      rfl

/-- A positive 256-bit value at most `plim` re-encodes to a compact that
decodes into `(0, plim]`. -/
theorem encode_in_range (x plim : Nat) (hplim : plim < POW256) (hx0 : 0 < x)
    (hxp : x ≤ plim) :
    0 < setCompactValue (getCompact x) ∧ setCompactValue (getCompact x) ≤ plim := by
  obtain ⟨hle, hpos⟩ := setCompactValue_getCompact x (lt_of_le_of_lt hxp hplim)
  exact ⟨hpos hx0, le_trans hle hxp⟩

/-- Positivity of the cap step for the four shipped bands, for a
previous target in `[4, NET_POWLIMIT]` and a candidate at most 100 times
the previous target and at least its sixtieth. -/
theorem capStep_pos (p bn : Nat) (band : Int × Int)
    (hband : band = (25, 25) ∨ band = (40, 40) ∨ band = (150, 100) ∨ band = (75, 75))
    (hp : 4 ≤ p) (hple : p ≤ NET_POWLIMIT) (hbn : bn ≤ p * 100) (hlow : p / 60 ≤ bn) :
    0 < capStep p bn band := by
  have hmod : ∀ k : Nat, k ≤ 4800 → p * k % POW256 = p * k := by
    intro k hk
    apply Nat.mod_eq_of_lt
    calc p * k ≤ NET_POWLIMIT * 4800 := Nat.mul_le_mul hple hk
      _ < POW256 := by unfold NET_POWLIMIT POW256; norm_num
  rcases hband with rfl | rfl | rfl | rfl
  · simp only [capStep]
    rw [show u32ofInt (100 - (25, 25).1) = 75 by decide,
      show u32ofInt (100 + (25, 25).2) = 125 by decide,
      hmod 75 (by norm_num), hmod 125 (by norm_num)]
    have hlo : 3 ≤ p * 75 / 100 := by
      have h4 : 4 * 75 / 100 ≤ p * 75 / 100 :=
        Nat.div_le_div_right (Nat.mul_le_mul_right _ hp)
      omega
    split_ifs <;> omega
  · simp only [capStep]
    rw [show u32ofInt (100 - (40, 40).1) = 60 by decide,
      show u32ofInt (100 + (40, 40).2) = 140 by decide,
      hmod 60 (by norm_num), hmod 140 (by norm_num)]
    have hlo : 2 ≤ p * 60 / 100 := by
      have h4 : 4 * 60 / 100 ≤ p * 60 / 100 :=
        Nat.div_le_div_right (Nat.mul_le_mul_right _ hp)
      omega
    split_ifs <;> omega
  · simp only [capStep]
    rw [show u32ofInt (100 - (150, 100).1) = 4294967246 by decide,
      show u32ofInt (100 + (150, 100).2) = 200 by decide,
      hmod 200 (by norm_num)]
    set L := p * 4294967246 % POW256 / 100 with hL
    have hhi : p * 200 / 100 = p * 2 := by
      rw [show p * 200 = p * 2 * 100 by ring, Nat.mul_div_cancel _ (by norm_num)]
    split_ifs with h1 h2
    · omega
    · omega
    · -- candidate inside the (inverted) band: show it is positive
      by_cases hw : p * 4294967246 < POW256
      · have hlo : 4 * 42949672 ≤ L := by
          rw [hL, Nat.mod_eq_of_lt hw]
          have h1' : 4 * 4294967246 / 100 ≤ p * 4294967246 / 100 :=
            Nat.div_le_div_right (Nat.mul_le_mul_right _ hp)
          omega
        omega
      · push_neg at hw
        have hp224 : 2 ^ 224 < p := by
          by_contra hcon
          push_neg at hcon
          have hsmall : p * 4294967246 < POW256 := by
            unfold POW256
            exact lt_of_le_of_lt (Nat.mul_le_mul_right _ hcon) (by norm_num)
          exact absurd hsmall (not_lt.mpr hw)
        have h60 : 2 ^ 224 / 60 ≤ p / 60 := Nat.div_le_div_right (le_of_lt hp224)
        have hpos : (0 : Nat) < 2 ^ 224 / 60 := by norm_num
        exact lt_of_lt_of_le hpos (le_trans h60 hlow)
  · simp only [capStep]
    rw [show u32ofInt (100 - (75, 75).1) = 25 by decide,
      show u32ofInt (100 + (75, 75).2) = 175 by decide,
      hmod 25 (by norm_num), hmod 175 (by norm_num)]
    have hlo : 1 ≤ p * 25 / 100 := by
      have h4 : 4 * 25 / 100 ≤ p * 25 / 100 :=
        Nat.div_le_div_right (Nat.mul_le_mul_right _ hp)
      omega
    split_ifs <;> omega


theorem nHeight_cons (h : Nat) (t : Int) (b : Nat) (p : BlockIndex) :
    (BlockIndex.cons h t b p).nHeight = h := rfl

theorem nTime_cons (h : Nat) (t : Int) (b : Nat) (p : BlockIndex) :
    (BlockIndex.cons h t b p).nTime = t := rfl

theorem nBits_cons (h : Nat) (t : Int) (b : Nat) (p : BlockIndex) :
    (BlockIndex.cons h t b p).nBits = b := rfl

theorem pprev_cons (h : Nat) (t : Int) (b : Nat) (p : BlockIndex) :
    (BlockIndex.cons h t b p).pprev = some p := rfl

/-- Nat clamp written as the source writes it equals `min`. -/
theorem ite_gt_eq_min (a b : Nat) : (if a > b then b else a) = min a b := by
  split_ifs <;> omega

/-! ### C6 amended: the actual analysis windows -/

/-- C6 amended: the adaptive algorithm's long-term average is the mean
of the 8 most recent clamped inter-block spacings and its short-term
average the mean of the 3 most recent ones (fewer only when the chain is
shorter), not 12 and 6. -/
theorem windows_amended (T fallback : Int) (tip : BlockIndex) (hprev : tip.pprev ≠ none) :
    newAlgoAverageSpacing T tip fallback =
      udiv64 ((spacingsAll T tip).take 8).sum ((spacingsAll T tip).take 8).length ∧
    newAlgoShortAverage T tip fallback =
      ((spacingsAll T tip).take 3).sum.tdiv (((spacingsAll T tip).take 3).length : Int) := by
  cases tip with
  | base h t b => simp [BlockIndex.pprev] at hprev
  | cons h t b p =>
    have hcol : collectSpacings T 8 (.cons h t b p) =
        (spacingsAll T (.cons h t b p)).take 8 := collectSpacings_eq_take T 8 _
    have hne : collectSpacings T 8 (BlockIndex.cons h t b p) ≠ [] := by
      simp [collectSpacings]
    constructor
    · simp only [newAlgoAverageSpacing, newAlgoRecentSpacings]
      rw [if_neg hne, hcol]
    · simp only [newAlgoShortAverage, newAlgoRecentSpacings]
      rw [if_neg hne, hcol]
      simp only [List.take_take, List.length_take]
      have hmin1 : min (min 3 (min 8 (spacingsAll T (BlockIndex.cons h t b p)).length)) 8 =
          min 3 (spacingsAll T (BlockIndex.cons h t b p)).length := by omega
      have hmin2 : min 3 (min 8 (spacingsAll T (BlockIndex.cons h t b p)).length) =
          min 3 (spacingsAll T (BlockIndex.cons h t b p)).length := by omega
      rw [hmin1, hmin2]
      have htake : (spacingsAll T (BlockIndex.cons h t b p)).take
          (min 3 (spacingsAll T (BlockIndex.cons h t b p)).length) =
          (spacingsAll T (BlockIndex.cons h t b p)).take 3 := by
        rcases le_or_lt 3 (spacingsAll T (BlockIndex.cons h t b p)).length with hl | hl
        · rw [min_eq_left hl]
        · rw [min_eq_right (le_of_lt hl), List.take_length,
            List.take_of_length_le (le_of_lt hl)]
      rw [htake]

/-- C6 witness: the amended window theorem at a concrete chain. -/
theorem windows_amended_witness :
    newAlgoAverageSpacing 60 mixedSpacingChain 60 =
      udiv64 ((spacingsAll 60 mixedSpacingChain).take 8).sum
        ((spacingsAll 60 mixedSpacingChain).take 8).length ∧
    newAlgoShortAverage 60 mixedSpacingChain 60 =
      ((spacingsAll 60 mixedSpacingChain).take 3).sum.tdiv
        (((spacingsAll 60 mixedSpacingChain).take 3).length : Int) :=
  windows_amended 60 60 mixedSpacingChain (by decide)

/-! ### C7 amended: the cap step with the shipped bands -/

/-- C7 amended: the cap step clamps the candidate between
`prev * (100 - maxIncrease) / 100` and `prev * (100 + maxDecrease) / 100`
for the attack (25, 25), large-prior-change (40, 40) and normal (75, 75)
bands; in the prolonged-delay band the C++ `int` expression
`100 - maxIncrease = -50` converts to the `uint32_t` scalar 4294967246,
the lower band exceeds the upper band, and the step returns
`prev * 4294967246 / 100` (here stated without wrap-around for previous
targets up to `2 ^ 224`). -/
theorem capStep_amended (bnPrevious bnNew : Nat) (attack large delayed : Bool)
    (hp : bnPrevious ≤ 2 ^ 224) (hn : bnNew ≤ bnPrevious * 100) :
    (attack = true →
      bnPrevious * (100 - 25) / 100 ≤
          capStep bnPrevious bnNew (capBand attack large delayed) ∧
        capStep bnPrevious bnNew (capBand attack large delayed) ≤
          bnPrevious * (100 + 25) / 100) ∧
    (attack = false → large = true →
      bnPrevious * (100 - 40) / 100 ≤
          capStep bnPrevious bnNew (capBand attack large delayed) ∧
        capStep bnPrevious bnNew (capBand attack large delayed) ≤
          bnPrevious * (100 + 40) / 100) ∧
    (attack = false → large = false → delayed = true →
      capStep bnPrevious bnNew (capBand attack large delayed) =
        bnPrevious * 4294967246 / 100) ∧
    (attack = false → large = false → delayed = false →
      bnPrevious * (100 - 75) / 100 ≤
          capStep bnPrevious bnNew (capBand attack large delayed) ∧
        capStep bnPrevious bnNew (capBand attack large delayed) ≤
          bnPrevious * (100 + 75) / 100) := by
  have hmod : ∀ k : Nat, k ≤ 4294967246 → bnPrevious * k % POW256 = bnPrevious * k := by
    intro k hk
    apply Nat.mod_eq_of_lt
    calc bnPrevious * k ≤ 2 ^ 224 * 4294967246 := Nat.mul_le_mul hp hk
      _ < POW256 := by unfold POW256; norm_num
  cases attack with
  | true =>
    refine ⟨fun _ => ?_, by simp, by simp, by simp⟩
    have hband : capBand true large delayed = ((25 : Int), (25 : Int)) := rfl
    rw [hband]
    simp only [capStep]
    rw [show u32ofInt (100 - ((25 : Int), (25 : Int)).1) = 75 by decide,
      show u32ofInt (100 + ((25 : Int), (25 : Int)).2) = 125 by decide,
      hmod 75 (by norm_num), hmod 125 (by norm_num)]
    have hlh : bnPrevious * 75 / 100 ≤ bnPrevious * 125 / 100 :=
      Nat.div_le_div_right (Nat.mul_le_mul_left _ (by norm_num))
    split_ifs <;> omega
  | false =>
    cases large with
    | true =>
      refine ⟨by simp, fun _ _ => ?_, by simp, by simp⟩
      have hband : capBand false true delayed = ((40 : Int), (40 : Int)) := rfl
      rw [hband]
      simp only [capStep]
      rw [show u32ofInt (100 - ((40 : Int), (40 : Int)).1) = 60 by decide,
        show u32ofInt (100 + ((40 : Int), (40 : Int)).2) = 140 by decide,
        hmod 60 (by norm_num), hmod 140 (by norm_num)]
      have hlh : bnPrevious * 60 / 100 ≤ bnPrevious * 140 / 100 :=
        Nat.div_le_div_right (Nat.mul_le_mul_left _ (by norm_num))
      split_ifs <;> omega
    | false =>
      cases delayed with
      | true =>
        refine ⟨by simp, by simp, fun _ _ _ => ?_, by simp⟩
        have hband : capBand false false true = ((150 : Int), (100 : Int)) := rfl
        rw [hband]
        simp only [capStep]
        rw [show u32ofInt (100 - ((150 : Int), (100 : Int)).1) = 4294967246 by decide,
          show u32ofInt (100 + ((150 : Int), (100 : Int)).2) = 200 by decide,
          hmod 4294967246 (by norm_num), hmod 200 (by norm_num)]
        rcases Nat.eq_zero_or_pos bnPrevious with hp0 | hp0
        · subst hp0
          have hbn0 : bnNew = 0 := by omega
          subst hbn0
          norm_num
        · have hlo : bnPrevious * 42949672 ≤ bnPrevious * 4294967246 / 100 := by
            rw [Nat.le_div_iff_mul_le (by norm_num)]
            calc bnPrevious * 42949672 * 100 = bnPrevious * 4294967200 := by ring
              _ ≤ bnPrevious * 4294967246 := Nat.mul_le_mul_left _ (by norm_num)
          have hlt : bnNew < bnPrevious * 4294967246 / 100 := by
            have h1 : bnPrevious * 100 < bnPrevious * 42949672 :=
              (Nat.mul_lt_mul_left hp0).mpr (by norm_num)
            omega
          rw [if_pos hlt]
      | false =>
        refine ⟨by simp, by simp, by simp, fun _ _ _ => ?_⟩
        have hband : capBand false false false = ((75 : Int), (75 : Int)) := rfl
        rw [hband]
        simp only [capStep]
        rw [show u32ofInt (100 - ((75 : Int), (75 : Int)).1) = 25 by decide,
          show u32ofInt (100 + ((75 : Int), (75 : Int)).2) = 175 by decide,
          hmod 25 (by norm_num), hmod 175 (by norm_num)]
        have hlh : bnPrevious * 25 / 100 ≤ bnPrevious * 175 / 100 :=
          Nat.div_le_div_right (Nat.mul_le_mul_left _ (by norm_num))
        split_ifs <;> omega

/-- C7 witness: the amended cap-step theorem at concrete inputs (the
attack band, with the candidate below the band). -/
theorem capStep_amended_witness :
    (true = true →
      1000 * (100 - 25) / 100 ≤ capStep 1000 100 (capBand true false false) ∧
        capStep 1000 100 (capBand true false false) ≤ 1000 * (100 + 25) / 100) ∧
    (true = false → false = true →
      1000 * (100 - 40) / 100 ≤ capStep 1000 100 (capBand true false false) ∧
        capStep 1000 100 (capBand true false false) ≤ 1000 * (100 + 40) / 100) ∧
    (true = false → false = false → false = true →
      capStep 1000 100 (capBand true false false) = 1000 * 4294967246 / 100) ∧
    (true = false → false = false → false = false →
      1000 * (100 - 75) / 100 ≤ capStep 1000 100 (capBand true false false) ∧
        capStep 1000 100 (capBand true false false) ≤ 1000 * (100 + 75) / 100) :=
  capStep_amended 1000 100 true false false (by norm_num) (by norm_num)

/-! ### C10: the severe-delay emergency branch -/

/-- C10: whenever the severe-delay branch is taken (clamped actual
spacing above `3 * T` or time since last block above `5 * T`, with no
death-spiral reset at `time_since_last > 15 * T` firing first), the
returned compact is the re-encoding of the previous block's decoded
target multiplied by
`min (max (actual_spacing div T) (time_since_last div T)) 50`, clamped
above by `powLimit`. -/
theorem severeDelay_formula (now candidateTime : Int) (hgt : Nat) (tt : Int) (nb : Nat)
    (p : BlockIndex) (params : ConsensusParams)
    (hT : 0 < params.nPowTargetSpacing)
    (hdisp : 155550 ≤ hgt + 1)
    (hfr : ¬(155550 ≤ hgt ∧ hgt < 155650))
    (hds : now - tt ≤ 15 * params.nPowTargetSpacing)
    (hsev : clampSpacing params.nPowTargetSpacing (tt - p.nTime) >
          3 * params.nPowTargetSpacing ∨
        now - tt > 5 * params.nPowTargetSpacing) :
    GetNextWorkRequired now (.cons hgt tt nb p) candidateTime params =
      getCompact (min
        (setCompactValue nb * (min (max
            ((clampSpacing params.nPowTargetSpacing (tt - p.nTime)).tdiv
              params.nPowTargetSpacing)
            ((now - tt).tdiv params.nPowTargetSpacing)) 50).toNat % POW256)
        (params.powLimit % POW256)) := by
  simp only [GetNextWorkRequired, GetNextWorkRequiredNewAlgo, pprev_cons, nHeight_cons,
    nTime_cons, nBits_cons]
  rw [if_pos (show 155550 ≤ hgt + 1 from hdisp)]
  rw [if_neg hfr]
  rw [if_neg (show ¬ ((decide (now - tt > 15 * params.nPowTargetSpacing)
      || decide (now - tt > 30 * params.nPowTargetSpacing)) = true) by
    simp only [Bool.or_eq_true, decide_eq_true_eq]
    push_neg
    constructor <;> omega)]
  rw [if_pos hsev]
  have hx0 : 0 ≤ (clampSpacing params.nPowTargetSpacing (tt - p.nTime)).tdiv
      params.nPowTargetSpacing := by
    apply Int.tdiv_nonneg _ (le_of_lt hT)
    unfold clampSpacing
    omega
  have hk0 : 0 ≤ min (max ((clampSpacing params.nPowTargetSpacing (tt - p.nTime)).tdiv
      params.nPowTargetSpacing) ((now - tt).tdiv params.nPowTargetSpacing)) 50 := by
    have hm := le_max_left ((clampSpacing params.nPowTargetSpacing (tt - p.nTime)).tdiv
      params.nPowTargetSpacing) ((now - tt).tdiv params.nPowTargetSpacing)
    omega
  have hk32 : min (max ((clampSpacing params.nPowTargetSpacing (tt - p.nTime)).tdiv
      params.nPowTargetSpacing) ((now - tt).tdiv params.nPowTargetSpacing)) 50 < 2 ^ 32 := by
    have hm := min_le_right (max ((clampSpacing params.nPowTargetSpacing (tt - p.nTime)).tdiv
      params.nPowTargetSpacing) ((now - tt).tdiv params.nPowTargetSpacing)) 50
    omega
  rw [u32ofInt_eq_toNat _ hk0 hk32, ite_gt_eq_min]

/-- C10 witness: the severe-delay theorem instantiated at a concrete
chain (time since last block is 361 seconds, six target spacings). -/
theorem severeDelay_formula_witness :
    GetNextWorkRequired 1000361 (.cons 155700 1000000 0x1d00ffff sixtyTail) 0 mainnetParams =
      getCompact (min
        (setCompactValue 0x1d00ffff * (min (max
            ((clampSpacing mainnetParams.nPowTargetSpacing
                ((1000000 : Int) - sixtyTail.nTime)).tdiv mainnetParams.nPowTargetSpacing)
            (((1000361 : Int) - 1000000).tdiv mainnetParams.nPowTargetSpacing)) 50).toNat
          % POW256)
        (mainnetParams.powLimit % POW256)) :=
  severeDelay_formula 1000361 0 155700 1000000 0x1d00ffff sixtyTail mainnetParams
    (by decide) (by decide) (by decide) (by decide) (by decide)


/-! ### C1 amended: range of the returned target -/

theorem pprev_base (h : Nat) (t : Int) (b : Nat) :
    (BlockIndex.base h t b).pprev = none := rfl

theorem capBand_cases (a l d : Bool) :
    capBand a l d = (25, 25) ∨ capBand a l d = (40, 40) ∨
      capBand a l d = (150, 100) ∨ capBand a l d = (75, 75) := by
  cases a <;> cases l <;> cases d <;> simp [capBand]

theorem powLimit_mod : NET_POWLIMIT % POW256 = NET_POWLIMIT := by decide

theorem powLimit_encode_range :
    0 < setCompactValue (getCompact NET_POWLIMIT) ∧
      setCompactValue (getCompact NET_POWLIMIT) ≤ NET_POWLIMIT :=
  encode_in_range NET_POWLIMIT NET_POWLIMIT (by decide) (by decide) (le_refl _)

/-- Range of `CalculateDogecoinNextWorkRequired` under the shipped
numeric parameters and a well-formed tip target. -/
theorem calcDoge_range (tip : BlockIndex) (ft : Int) (params : ConsensusParams)
    (hpl : params.powLimit = NET_POWLIMIT) (hts : params.nPowTargetTimespan = 1200)
    (hnb : 4 ≤ setCompactValue tip.nBits ∧ setCompactValue tip.nBits ≤ NET_POWLIMIT) :
    0 < setCompactValue (CalculateDogecoinNextWorkRequired tip ft params) ∧
      setCompactValue (CalculateDogecoinNextWorkRequired tip ft params) ≤ NET_POWLIMIT := by
  simp only [CalculateDogecoinNextWorkRequired, hpl, hts, powLimit_mod]
  by_cases hnr : params.fPowNoRetargeting = true
  · rw [if_pos hnr]
    exact ⟨by omega, hnb.2⟩
  rw [if_neg hnr]
  rw [show ((1200 : Int)).tdiv 4 = 300 by decide]
  set m := if params.fDigishieldDifficultyCalculation = true
      then 1200 + (tip.nTime - ft - 1200).tdiv 8 else tip.nTime - ft with hm
  set c := if m < 300 then (300 : Int) else if m > 1200 * 4 then 1200 * 4 else m with hc
  have hcb : 300 ≤ c ∧ c ≤ 4800 := by
    rw [hc]
    split_ifs <;> omega
  have hu : u32ofInt c = c.toNat := u32ofInt_eq_toNat _ (by omega) (by omega)
  rw [hu]
  have hcN : 300 ≤ c.toNat ∧ c.toNat ≤ 4800 := by omega
  have hmodc : setCompactValue tip.nBits * c.toNat % POW256 =
      setCompactValue tip.nBits * c.toNat := by
    apply Nat.mod_eq_of_lt
    calc setCompactValue tip.nBits * c.toNat ≤ NET_POWLIMIT * 4800 :=
          Nat.mul_le_mul hnb.2 hcN.2
      _ < POW256 := by unfold NET_POWLIMIT POW256; norm_num
  rw [hmodc, show u64ofInt 1200 = 1200 by decide]
  have hpos : 1 ≤ setCompactValue tip.nBits * c.toNat / 1200 := by
    rw [Nat.one_le_div_iff (by norm_num)]
    calc (1200 : Nat) = 4 * 300 := by norm_num
      _ ≤ setCompactValue tip.nBits * c.toNat := Nat.mul_le_mul hnb.1 hcN.1
  by_cases hcap : setCompactValue tip.nBits * c.toNat / 1200 > NET_POWLIMIT
  · rw [if_pos hcap]
    exact powLimit_encode_range
  · rw [if_neg hcap]
    exact encode_in_range _ _ (by decide) (by omega) (by omega)

/-- Range of the adaptive algorithm under the shipped numeric parameters
and well-formed chain targets. -/
theorem newAlgo_range (now : Int) (tip : BlockIndex) (params : ConsensusParams)
    (hpl : params.powLimit = NET_POWLIMIT) (hsp : params.nPowTargetSpacing = 60)
    (hbits : ∀ blk ∈ chainBlocks tip, 4 ≤ setCompactValue blk.nBits ∧
        setCompactValue blk.nBits ≤ NET_POWLIMIT) :
    0 < setCompactValue (GetNextWorkRequiredNewAlgo now (some tip) params) ∧
      setCompactValue (GetNextWorkRequiredNewAlgo now (some tip) params) ≤ NET_POWLIMIT := by
  cases tip with
  | base hgt tt nb =>
    simp only [GetNextWorkRequiredNewAlgo, pprev_base, hpl, powLimit_mod]
    exact powLimit_encode_range
  | cons hgt tt nb p =>
    have hnb : 4 ≤ setCompactValue nb ∧ setCompactValue nb ≤ NET_POWLIMIT := by
      have hh := hbits (.cons hgt tt nb p) (self_mem_chainBlocks _)
      simpa [nBits_cons] using hh
    simp only [GetNextWorkRequiredNewAlgo, pprev_cons, nHeight_cons, nTime_cons,
      nBits_cons, hpl, hsp, powLimit_mod]
    by_cases hfr : 155550 ≤ hgt ∧ hgt < 155650
    · rw [if_pos hfr]
      exact powLimit_encode_range
    rw [if_neg hfr]
    by_cases hdeath : (decide (now - tt > 15 * 60) || decide (now - tt > 30 * 60)) = true
    · rw [if_pos hdeath]
      exact powLimit_encode_range
    rw [if_neg hdeath]
    by_cases hsev : clampSpacing 60 (tt - p.nTime) > 3 * 60 ∨ now - tt > 5 * 60
    · rw [if_pos hsev]
      have hab := clampSpacing_bounds (tt - p.nTime)
      have hk3 : 3 ≤ min (max ((clampSpacing 60 (tt - p.nTime)).tdiv 60)
          ((now - tt).tdiv 60)) 50 := by
        rcases hsev with hfast | hlate
        · have h3' : (3 : Int) ≤ (clampSpacing 60 (tt - p.nTime)).tdiv 60 := by
            have h0 : (0 : Int) ≤ clampSpacing 60 (tt - p.nTime) := by omega
            rw [tdiv_toNat _ _ h0 (by norm_num),
              show ((60 : Int).toNat) = 60 from rfl]
            have h3n : 3 ≤ (clampSpacing 60 (tt - p.nTime)).toNat / 60 := by omega
            exact_mod_cast h3n
          omega
        · have h5' : (5 : Int) ≤ (now - tt).tdiv 60 := by
            have h0 : (0 : Int) ≤ now - tt := by omega
            rw [tdiv_toNat _ _ h0 (by norm_num),
              show ((60 : Int).toNat) = 60 from rfl]
            have h5n : 5 ≤ (now - tt).toNat / 60 := by omega
            exact_mod_cast h5n
          omega
      have hk50 := min_le_right (max ((clampSpacing 60 (tt - p.nTime)).tdiv 60)
        ((now - tt).tdiv 60)) (50 : Int)
      have hu : u32ofInt (min (max ((clampSpacing 60 (tt - p.nTime)).tdiv 60)
          ((now - tt).tdiv 60)) 50) = (min (max ((clampSpacing 60 (tt - p.nTime)).tdiv 60)
          ((now - tt).tdiv 60)) 50).toNat :=
        u32ofInt_eq_toNat _ (by omega) (by omega)
      rw [hu]
      have hkN : 3 ≤ (min (max ((clampSpacing 60 (tt - p.nTime)).tdiv 60)
          ((now - tt).tdiv 60)) 50).toNat ∧
          (min (max ((clampSpacing 60 (tt - p.nTime)).tdiv 60)
          ((now - tt).tdiv 60)) 50).toNat ≤ 50 := by omega
      have hmode : setCompactValue nb * (min (max ((clampSpacing 60 (tt - p.nTime)).tdiv 60)
          ((now - tt).tdiv 60)) 50).toNat % POW256 =
          setCompactValue nb * (min (max ((clampSpacing 60 (tt - p.nTime)).tdiv 60)
          ((now - tt).tdiv 60)) 50).toNat := by
        apply Nat.mod_eq_of_lt
        calc setCompactValue nb * (min (max ((clampSpacing 60 (tt - p.nTime)).tdiv 60)
              ((now - tt).tdiv 60)) 50).toNat ≤ NET_POWLIMIT * 50 :=
              Nat.mul_le_mul hnb.2 hkN.2
          _ < POW256 := by unfold NET_POWLIMIT POW256; norm_num
      rw [hmode]
      by_cases hcap : setCompactValue nb * (min (max ((clampSpacing 60 (tt - p.nTime)).tdiv 60)
          ((now - tt).tdiv 60)) 50).toNat > NET_POWLIMIT
      · rw [if_pos hcap]
        exact powLimit_encode_range
      · rw [if_neg hcap]
        refine encode_in_range _ _ (by decide) ?_ (by omega)
        have := Nat.mul_le_mul hnb.1 hkN.1
        omega
    · rw [if_neg hsev]
      -- the main adjustment path
      have hne : collectSpacings 60 8 (BlockIndex.cons hgt tt nb p) ≠ [] := by
        simp [collectSpacings]
      have hrec : newAlgoRecentSpacings 60 (BlockIndex.cons hgt tt nb p)
          (clampSpacing 60 (tt - p.nTime)) =
          collectSpacings 60 8 (BlockIndex.cons hgt tt nb p) := by
        simp only [newAlgoRecentSpacings]
        rw [if_neg hne]
      have hmem : ∀ x ∈ collectSpacings 60 8 (BlockIndex.cons hgt tt nb p),
          1 ≤ x ∧ x ≤ 6000 := by
        rw [collectSpacings_eq_take]
        exact fun x hx => spacingsAll_bounds _ x (List.mem_of_mem_take hx)
      have hlen : (collectSpacings 60 8 (BlockIndex.cons hgt tt nb p)).length ≤ 8 := by
        rw [collectSpacings_eq_take]
        exact List.length_take_le 8 _
      have hlen1 : 1 ≤ (collectSpacings 60 8 (BlockIndex.cons hgt tt nb p)).length := by
        cases hcl : collectSpacings 60 8 (BlockIndex.cons hgt tt nb p) with
        | nil => exact absurd hcl hne
        | cons a l => simp
      have havg : 1 ≤ newAlgoAverageSpacing 60 (BlockIndex.cons hgt tt nb p)
          (clampSpacing 60 (tt - p.nTime)) ∧
          newAlgoAverageSpacing 60 (BlockIndex.cons hgt tt nb p)
          (clampSpacing 60 (tt - p.nTime)) ≤ 6000 := by
        simp only [newAlgoAverageSpacing]
        rw [hrec]
        exact udiv64_mean_range _ hne hlen hmem
      have hshort : 1 ≤ newAlgoShortAverage 60 (BlockIndex.cons hgt tt nb p)
          (clampSpacing 60 (tt - p.nTime)) ∧
          newAlgoShortAverage 60 (BlockIndex.cons hgt tt nb p)
          (clampSpacing 60 (tt - p.nTime)) ≤ 6000 := by
        simp only [newAlgoShortAverage]
        rw [hrec]
        exact tdiv_mean_range _ _ (by omega) (min_le_right _ _) hmem
      set ADJ := if (newAlgoPossibleAttack 60 (newAlgoRecentSpacings 60
          (BlockIndex.cons hgt tt nb p) (clampSpacing 60 (tt - p.nTime))) ||
          newAlgoLargeAdjustment (BlockIndex.cons hgt tt nb p)) = true
        then newAlgoAverageSpacing 60 (BlockIndex.cons hgt tt nb p)
          (clampSpacing 60 (tt - p.nTime))
        else newAlgoShortAverage 60 (BlockIndex.cons hgt tt nb p)
          (clampSpacing 60 (tt - p.nTime)) with hADJdef
      have hADJ : 1 ≤ ADJ ∧ ADJ ≤ 6000 := by
        rw [hADJdef]
        split_ifs
        · exact havg
        · exact hshort
      have hu : u32ofInt ADJ = ADJ.toNat := u32ofInt_eq_toNat _ (by omega) (by omega)
      rw [hu]
      have hAN : 1 ≤ ADJ.toNat ∧ ADJ.toNat ≤ 6000 := by omega
      have hmodBN : setCompactValue nb * ADJ.toNat % POW256 =
          setCompactValue nb * ADJ.toNat := by
        apply Nat.mod_eq_of_lt
        calc setCompactValue nb * ADJ.toNat ≤ NET_POWLIMIT * 6000 :=
              Nat.mul_le_mul hnb.2 hAN.2
          _ < POW256 := by unfold NET_POWLIMIT POW256; norm_num
      rw [hmodBN, show u64ofInt 60 = 60 by decide]
      have hBN0a : setCompactValue nb * ADJ.toNat / 60 ≤ setCompactValue nb * 100 := by
        have h1 : setCompactValue nb * ADJ.toNat / 60 ≤ setCompactValue nb * 6000 / 60 :=
          Nat.div_le_div_right (Nat.mul_le_mul_left _ hAN.2)
        have h2 : setCompactValue nb * 6000 / 60 = setCompactValue nb * 100 := by
          rw [show setCompactValue nb * 6000 = setCompactValue nb * 100 * 60 by ring,
            Nat.mul_div_cancel _ (by norm_num)]
        omega
      have hBN0b : setCompactValue nb / 60 ≤ setCompactValue nb * ADJ.toNat / 60 := by
        have h1 : setCompactValue nb * 1 ≤ setCompactValue nb * ADJ.toNat :=
          Nat.mul_le_mul_left _ hAN.1
        have h2 : setCompactValue nb * 1 / 60 ≤ setCompactValue nb * ADJ.toNat / 60 :=
          Nat.div_le_div_right h1
        simpa using h2
      have hBN1 : 0 < capStep (setCompactValue nb) (setCompactValue nb * ADJ.toNat / 60)
          (capBand (newAlgoPossibleAttack 60 (newAlgoRecentSpacings 60
            (BlockIndex.cons hgt tt nb p) (clampSpacing 60 (tt - p.nTime))))
            (newAlgoLargeAdjustment (BlockIndex.cons hgt tt nb p))
            (decide (now - tt > 2 * 60))) :=
        capStep_pos _ _ _ (capBand_cases _ _ _) hnb.1 hnb.2 hBN0a hBN0b
      set BN1 := capStep (setCompactValue nb) (setCompactValue nb * ADJ.toNat / 60)
          (capBand (newAlgoPossibleAttack 60 (newAlgoRecentSpacings 60
            (BlockIndex.cons hgt tt nb p) (clampSpacing 60 (tt - p.nTime))))
            (newAlgoLargeAdjustment (BlockIndex.cons hgt tt nb p))
            (decide (now - tt > 2 * 60))) with hBN1def
      have hBN2 : 0 < (if BN1 > NET_POWLIMIT then NET_POWLIMIT else BN1) ∧
          (if BN1 > NET_POWLIMIT then NET_POWLIMIT else BN1) ≤ NET_POWLIMIT := by
        have hpl0 : 0 < NET_POWLIMIT := by decide
        split_ifs <;> omega
      set BN2 := if BN1 > NET_POWLIMIT then NET_POWLIMIT else BN1 with hBN2def
      by_cases hma : (!newAlgoPossibleAttack 60 (newAlgoRecentSpacings 60
          (BlockIndex.cons hgt tt nb p) (clampSpacing 60 (tt - p.nTime))) &&
          !newAlgoLargeAdjustment (BlockIndex.cons hgt tt nb p) &&
          smallCompactChange (getCompact BN2) nb) = true
      · rw [if_pos hma]
        by_cases hdev : largeDeviation ADJ 60 = true
        · rw [if_pos hdev]
          have hmod97 : setCompactValue nb * 97 % POW256 = setCompactValue nb * 97 := by
            apply Nat.mod_eq_of_lt
            calc setCompactValue nb * 97 ≤ NET_POWLIMIT * 97 :=
                  Nat.mul_le_mul_right _ hnb.2
              _ < POW256 := by unfold NET_POWLIMIT POW256; norm_num
          have hmod103 : setCompactValue nb * 103 % POW256 = setCompactValue nb * 103 := by
            apply Nat.mod_eq_of_lt
            calc setCompactValue nb * 103 ≤ NET_POWLIMIT * 103 :=
                  Nat.mul_le_mul_right _ hnb.2
              _ < POW256 := by unfold NET_POWLIMIT POW256; norm_num
          rw [hmod97, hmod103]
          have hF : 3 ≤ (if ADJ < 60 then setCompactValue nb * 97 / 100
              else setCompactValue nb * 103 / 100) := by
            split_ifs
            · have h4 : 4 * 97 / 100 ≤ setCompactValue nb * 97 / 100 :=
                Nat.div_le_div_right (Nat.mul_le_mul_right _ hnb.1)
              omega
            · have h4 : 4 * 103 / 100 ≤ setCompactValue nb * 103 / 100 :=
                Nat.div_le_div_right (Nat.mul_le_mul_right _ hnb.1)
              omega
          set F := if ADJ < 60 then setCompactValue nb * 97 / 100
            else setCompactValue nb * 103 / 100 with hFdef
          by_cases hcap : F > NET_POWLIMIT
          · rw [if_pos hcap]
            exact powLimit_encode_range
          · rw [if_neg hcap]
            exact encode_in_range _ _ (by decide) (by omega) (by omega)
        · rw [if_neg hdev]
          exact encode_in_range _ _ (by decide) hBN2.1 hBN2.2
      · rw [if_neg hma]
        exact encode_in_range _ _ (by decide) hBN2.1 hBN2.2

/-- Range of the legacy algorithm under the shipped numeric parameters
and well-formed chain targets. -/
theorem oldAlgo_range (candidateTime : Int) (tip : BlockIndex) (params : ConsensusParams)
    (hpl : params.powLimit = NET_POWLIMIT) (hsp : params.nPowTargetSpacing = 60)
    (hts : params.nPowTargetTimespan = 1200)
    (hbits : ∀ blk ∈ chainBlocks tip, 4 ≤ setCompactValue blk.nBits ∧
        setCompactValue blk.nBits ≤ NET_POWLIMIT) :
    0 < setCompactValue (GetNextWorkRequiredOldAlgo (some tip) candidateTime params) ∧
      setCompactValue (GetNextWorkRequiredOldAlgo (some tip) candidateTime params) ≤
        NET_POWLIMIT := by
  have hnbtip := hbits tip (self_mem_chainBlocks tip)
  simp only [GetNextWorkRequiredOldAlgo, hpl, hsp, powLimit_mod]
  by_cases hdg : AllowDigishieldMinDifficultyForBlock tip candidateTime params = true
  · rw [if_pos hdg]
    exact powLimit_encode_range
  rw [if_neg hdg]
  by_cases hfr : 145364 ≤ tip.nHeight ∧ tip.nHeight < 145464
  · rw [if_pos hfr]
    exact powLimit_encode_range
  rw [if_neg hfr]
  by_cases hmod : ((tip.nHeight : Int) + 1).tmod
      (if 145000 ≤ tip.nHeight ∧ tip.nHeight < 145365 then 1
       else DifficultyAdjustmentInterval params) ≠ 0
  · rw [if_pos hmod]
    by_cases hmd : params.fPowAllowMinDifficultyBlocks = true
    · rw [if_pos hmd]
      by_cases htime : candidateTime > tip.nTime + 60 * 2
      · rw [if_pos htime]
        exact powLimit_encode_range
      · rw [if_neg htime]
        obtain ⟨blk, hmem, heq⟩ := walkBackNBits_mem (DifficultyAdjustmentInterval params)
          (getCompact NET_POWLIMIT) tip
        rw [heq]
        have hb := hbits blk hmem
        exact ⟨by omega, hb.2⟩
    · rw [if_neg hmd]
      exact ⟨by omega, hnbtip.2⟩
  · rw [if_neg hmod]
    exact calcDoge_range tip _ params hpl hts hnbtip

/-- C1 amended: for consensus parameters carrying the shipped numeric
values (`powLimit = (2^256 - 1) >> 20`, `nPowTargetSpacing = 60`,
`nPowTargetTimespan = 1200`) and a tip every one of whose chain entries
has an `nBits` decoding to a target in `[4, powLimit]`, the compact
target returned by `GetNextWorkRequired` decodes to a value `T` with
`0 < T ≤ params.powLimit` — on every branch of both algorithms. The
unconditional claim fails (`nextWork_range_cex`). -/
theorem nextWork_range_amended (now candidateTime : Int) (tip : BlockIndex)
    (params : ConsensusParams)
    (hpl : params.powLimit = NET_POWLIMIT)
    (hsp : params.nPowTargetSpacing = 60)
    (hts : params.nPowTargetTimespan = 1200)
    (hbits : ∀ blk ∈ chainBlocks tip, 4 ≤ setCompactValue blk.nBits ∧
        setCompactValue blk.nBits ≤ params.powLimit) :
    0 < setCompactValue (GetNextWorkRequired now tip candidateTime params) ∧
      setCompactValue (GetNextWorkRequired now tip candidateTime params) ≤
        params.powLimit := by
  rw [hpl] at hbits ⊢
  unfold GetNextWorkRequired
  by_cases hd : 155550 ≤ tip.nHeight + 1
  · rw [if_pos hd]
    exact newAlgo_range now tip params hpl hsp hbits
  · rw [if_neg hd]
    exact oldAlgo_range candidateTime tip params hpl hsp hts hbits

/-- C1 witness: the amended range theorem at a concrete legacy chain
with well-formed targets. -/
theorem nextWork_range_witness :
    0 < setCompactValue (GetNextWorkRequired 0 legacyWitnessTip 6060 mainnetParams) ∧
      setCompactValue (GetNextWorkRequired 0 legacyWitnessTip 6060 mainnetParams) ≤
        mainnetParams.powLimit :=
  nextWork_range_amended 0 6060 legacyWitnessTip mainnetParams
    (by decide) (by decide) (by decide) (by decide)

end MmpCoin
